import Mathlib

/-!
Verification of the local encrypted data store of a client-only personal
finance tracker.  The JavaScript source (js/data-manager.js and
js/security.js) is shallowly embedded: the host cryptographic primitives
(PBKDF2 key derivation and AES-GCM authenticated encryption) are modelled
symbolically, JavaScript Promise values produced by the async security
methods are modelled explicitly (the data-manager read and write methods
are synchronous and do not await them), and localStorage is an association
list from RecordSet names to stored strings.  The constant key namespace
"financeTracker_" that the source prepends to every localStorage key is
normalised away, since every access goes through the same constant.
-/

namespace FinanceTracker

/-- Symbolic model of a WebCrypto key produced by crypto.subtle.deriveKey.
PBKDF2 is idealised as injective in all of its inputs, so a derived key is
represented by the tuple of derivation inputs. -/
structure CryptoKey where
  password : String
  salt : String
  iterations : Nat
  hash : String
  keyLength : Nat
deriving DecidableEq

/-- The fixed application-wide salt of security.js line 239. -/
def fixedSalt : String := "finance-tracker-salt-2023"

namespace SecurityManager

/-- Embedding of SecurityManager.deriveKey (security.js 234-263): PBKDF2
over the UTF-8 bytes of the password with the fixed salt, 100000
iterations and SHA-256, producing a non-extractable 256-bit AES-GCM key.
The source consults no source of randomness and no state beside the
password argument. -/
def deriveKey (password : String) : CryptoKey :=
  { password := password, salt := fixedSalt, iterations := 100000,
    hash := "SHA-256", keyLength := 256 }

end SecurityManager

/-- Model of a string persisted in localStorage under a RecordSet name:
either the plaintext JSON text of a value, or the base64 envelope (12-byte
random IV followed by the AES-GCM ciphertext) produced by
SecurityManager.encryptData under a given key and nonce, or the string
coercion of a pending Promise object, produced when localStorage.setItem
converts an unawaited Promise to a DOMString.  JSON.parse succeeds exactly
on the plaintext form, and AES-GCM authenticated decryption succeeds
exactly on an envelope under its own key: this is the symbolic
idealisation of JSON parsing and of authenticated encryption. -/
inductive StoredStr (V : Type) where
  | plain (v : V)
  | cipher (key : CryptoKey) (nonce : Nat) (v : V)
  | promiseStr
deriving DecidableEq

namespace SecurityManager

/-- Embedding of SecurityManager.encryptData (security.js 268-292): throws
when this.encryptionKey is null; otherwise draws a fresh random 12-byte IV
(the explicit nonce argument of the model), AES-GCM encrypts the UTF-8
bytes of JSON.stringify of the data, and returns the base64 text of the IV
followed by the ciphertext. -/
def encryptData {V : Type} (encryptionKey : Option CryptoKey) (data : V)
    (nonce : Nat) : Except String (StoredStr V) :=
  match encryptionKey with
  | none => .error "Encryption key not available"
  | some k => .ok (.cipher k nonce data)

/-- Embedding of SecurityManager.decryptData (security.js 297-326): throws
when this.encryptionKey is null; otherwise base64-decodes, splits off the
12-byte IV, AES-GCM decrypts under this.encryptionKey and JSON.parses the
result.  Every failure inside the try block (invalid base64, failed
authentication under a wrong key, truncation, or invalid JSON) is caught
and rethrown as the Error with message "Failed to decrypt data". -/
def decryptData {V : Type} (encryptionKey : Option CryptoKey)
    (s : StoredStr V) : Except String V :=
  match encryptionKey with
  | none => .error "Encryption key not available"
  | some k =>
    match s with
    | .plain _ => .error "Failed to decrypt data"
    | .cipher k' _ v =>
      if k' = k then .ok v else .error "Failed to decrypt data"
    | .promiseStr => .error "Failed to decrypt data"

end SecurityManager

/-- Combined mutable state of the core: the localStorage contents together
with the DataManager fields encryptionKey and isEncrypted
(data-manager.js 8-10) and the SecurityManager fields encryptionKey and
isEncryptionEnabled (security.js 7-9). -/
structure AppState (V : Type) where
  storage : List (String × StoredStr V)
  dmKey : Option CryptoKey
  dmIsEncrypted : Bool
  smKey : Option CryptoKey
  smEnabled : Bool
deriving DecidableEq

/-- localStorage.getItem: the first binding of the key, if any. -/
def getItem {V : Type} : List (String × StoredStr V) → String →
    Option (StoredStr V)
  | [], _ => none
  | (k', v) :: rest, k => if k' = k then some v else getItem rest k

/-- localStorage.setItem: overwrites the binding of an existing key in
place and otherwise appends a new one. -/
def setItem {V : Type} : List (String × StoredStr V) → String →
    StoredStr V → List (String × StoredStr V)
  | [], k, v => [(k, v)]
  | (k', v') :: rest, k, v =>
    if k' = k then (k, v) :: rest else (k', v') :: setItem rest k v

/-- Possible results of DataManager.getData.  The source method is
synchronous; when the overridden decryptData (security.js 600-605)
dispatches to the async SecurityManager.decryptData, getData returns the
Promise object itself, which later resolves or rejects.  The surrounding
try/catch of getData cannot intercept an asynchronous rejection. -/
inductive GetResult (V : Type) where
  | nullv
  | value (v : V)
  | promiseResolved (v : V)
  | promiseRejected
deriving DecidableEq

namespace DataManager

/-- Embedding of DataManager.getData (data-manager.js 57-71) with the
decryptData override installed by the DOMContentLoaded wiring
(security.js 588-607).  It reads the raw stored string; when
this.isEncrypted and this.encryptionKey are set it calls the override,
which either forwards to the async SecurityManager.decryptData, handing
the resulting Promise straight back to the caller, or falls back to
JSON.parse; without a DataManager key it JSON.parses directly.  A
synchronous parse failure is caught and becomes a null return. -/
def getData {V : Type} (s : AppState V) (key : String) : GetResult V :=
  match getItem s.storage key with
  | none => .nullv
  | some raw =>
    if s.dmIsEncrypted && s.dmKey.isSome then
      if s.smEnabled && s.smKey.isSome then
        match SecurityManager.decryptData s.smKey raw with
        | .ok v => .promiseResolved v
        | .error _ => .promiseRejected
      else
        match raw with
        | .plain v => .value v
        | _ => .nullv
    else
      match raw with
      | .plain v => .value v
      | _ => .nullv

/-- Embedding of DataManager.setData (data-manager.js 76-92) with the
encryptData override installed by security.js 593-598.  When
this.isEncrypted and this.encryptionKey are set the override is invoked:
if the SecurityManager also has encryption enabled together with a key,
the override returns the pending Promise of the async
SecurityManager.encryptData and localStorage.setItem coerces that Promise
object to the DOMString text of a promise object, discarding the resolved
ciphertext; in every other case the JSON.stringify text of the value is
stored.  The write itself does not fail in this model, so the returned
boolean is true. -/
def setData {V : Type} (s : AppState V) (key : String) (data : V) :
    AppState V × Bool :=
  let stored : StoredStr V :=
    if s.dmIsEncrypted && s.dmKey.isSome then
      if s.smEnabled && s.smKey.isSome then .promiseStr
      else .plain data
    else .plain data
  ({ s with storage := setItem s.storage key stored }, true)

/-- Embedding of DataManager.getAllKeys (data-manager.js 110-119): the
localStorage keys of the financeTracker_ namespace with the constant
stripped; under the normalisation of this model, the stored names. -/
def getAllKeys {V : Type} (s : AppState V) : List String :=
  s.storage.map Prod.fst

/-- Embedding of DataManager.setEncryptionKey (data-manager.js 639-642). -/
def setEncryptionKey {V : Type} (s : AppState V) (k : CryptoKey) :
    AppState V :=
  { s with dmKey := some k, dmIsEncrypted := true }

/-- Embedding of DataManager.removeEncryption (data-manager.js 644-647). -/
def removeEncryption {V : Type} (s : AppState V) : AppState V :=
  { s with dmKey := none, dmIsEncrypted := false }

end DataManager

namespace SecurityManager

/-- Embedding of SecurityManager.verifyPassword (security.js 331-347): it
reads the raw stored settings entry directly from localStorage; an absent
entry means vacuous success.  Otherwise it saves this.encryptionKey into
tempKey, installs the candidate key and awaits decryptData.  On success it
restores the saved key (net state change: none) and returns true; a throw
jumps to the catch, which returns false with the candidate key still
installed, because the restoring assignment is skipped. -/
def verifyPassword {V : Type} (s : AppState V) (key : CryptoKey) :
    AppState V × Bool :=
  match getItem s.storage "settings" with
  | none => (s, true)
  | some raw =>
    match decryptData (some key) raw with
    | .ok _ => (s, true)
    | .error _ => ({ s with smKey := some key }, false)

/-- Outcome of the verification check of verifyPassword, as a function of
the storage contents and the candidate key alone. -/
def verifies {V : Type} (st : List (String × StoredStr V))
    (key : CryptoKey) : Bool :=
  match getItem st "settings" with
  | none => true
  | some raw =>
    match decryptData (some key) raw with
    | .ok _ => true
    | .error _ => false

/-- Outcome of the startup unlock flow; awaitingInput marks a run of the
model that consumed every scripted prompt response without finishing. -/
inductive UnlockOutcome where
  | unlocked
  | locked
  | awaitingInput
deriving DecidableEq

/-- Embedding of the while loop of SecurityManager.requestPassword
(security.js 137-165), parametrised by the scripted user responses to the
password prompt (none models Cancel, and the empty string is falsy, so
both call lockApp immediately).  A verified password is installed into the
SecurityManager and, via setEncryptionKey, into the DataManager; each
failed verification consumes one of the remaining attempts, and
exhausting all of them calls lockApp. -/
def requestPasswordLoop {V : Type} : Nat → List (Option String) →
    AppState V → AppState V × UnlockOutcome
  | 0, _, s => (s, .locked)
  | _ + 1, [], s => (s, .awaitingInput)
  | _ + 1, none :: _, s => (s, .locked)
  | n + 1, some password :: rest, s =>
    if password = "" then (s, .locked)
    else
      let key := deriveKey password
      let r := verifyPassword s key
      if r.2 then
        (DataManager.setEncryptionKey { r.1 with smKey := some key } key,
         .unlocked)
      else requestPasswordLoop n rest r.1

/-- SecurityManager.requestPassword starts with maxAttempts = 3
(security.js 139). -/
def requestPassword {V : Type} (responses : List (Option String))
    (s : AppState V) : AppState V × UnlockOutcome :=
  requestPasswordLoop 3 responses s

end SecurityManager

/-- Concrete RecordSet value universe used for the Security Session flows.
A JSON object is either the settings object, represented by its
encryptionEnabled flag together with a numeric code for all of its
remaining fields (code 0 standing for no further fields), or any other
JSON value, one with no encryptionEnabled property, represented by a
numeric code. -/
inductive Rv where
  | settingsV (encryptionEnabled : Bool) (rest : Nat)
  | dataV (code : Nat)
deriving DecidableEq

/-- Model of the settings update statements shared by the flows
(security.js 82-84 and 117-119): read settings via getData, fall back to
the empty object when the read result is falsy, then assign
settings.encryptionEnabled.  Should getData hand back a Promise object
(possible only with the DataManager in the encrypted state), the source
would set the property on the Promise itself; JSON.stringify of a Promise
carrying the single own property encryptionEnabled prints exactly the
object coded by settingsV b 0, and in the encrypted state the stored value
is discarded by setData anyway, so both Promise branches collapse to that
object. -/
def withFlag (r : GetResult Rv) (b : Bool) : Rv :=
  match r with
  | .value (.settingsV _ rest) => .settingsV b rest
  | .value (.dataV c) => .settingsV b c
  | .nullv => .settingsV b 0
  | .promiseResolved _ => .settingsV b 0
  | .promiseRejected => .settingsV b 0

/-- Observable events of a Security Session flow, listed in execution
order: user alerts, key derivations, installing the derived key into the
SecurityManager field, a sweep write of one RecordSet, the settings write
that persists the encryptionEnabled flag, and installing or removing the
DataManager key. -/
inductive Ev where
  | alert (msg : String)
  | derived (password : String)
  | smKeySet (k : CryptoKey)
  | storeWrite (name : String)
  | settingsFlagWrite (b : Bool)
  | dmKeyInstall (k : CryptoKey)
  | dmKeyRemove
deriving DecidableEq

namespace SecurityManager

/-- Embedding of the loop of SecurityManager.reencryptAllData
(security.js 352-361) over an explicit list of names: data = getData(key);
if (data) setData(key, data).  A null result is falsy and skipped; a
parsed value is written back; a Promise result is a truthy object and is
passed to setData - and since getData only returns a Promise when the
DataManager is in the encrypted state, that setData call stores the
coerced Promise string whatever its data argument is, which the dummy
argument dataV 0 makes explicit. -/
def reencryptLoop (names : List String) (s : AppState Rv) :
    AppState Rv × List Ev :=
  match names with
  | [] => (s, [])
  | name :: rest =>
    let step : AppState Rv × List Ev :=
      match DataManager.getData s name with
      | .nullv => (s, [])
      | .value v => ((DataManager.setData s name v).1, [.storeWrite name])
      | .promiseResolved _ =>
        ((DataManager.setData s name (.dataV 0)).1, [.storeWrite name])
      | .promiseRejected =>
        ((DataManager.setData s name (.dataV 0)).1, [.storeWrite name])
    let next := reencryptLoop rest step.1
    (next.1, step.2 ++ next.2)

/-- Embedding of SecurityManager.reencryptAllData (security.js 352-361):
the loop above over dataManager.getAllKeys(). -/
def reencryptAllData (s : AppState Rv) : AppState Rv × List Ev :=
  reencryptLoop (DataManager.getAllKeys s) s

/-- Embedding of the loop of SecurityManager.decryptAllData
(security.js 366-386): for each name, read the raw localStorage string;
if present, set this.encryptionKey to the saved tempKey, await
decryptData, and on success clear this.encryptionKey and write the
decrypted value back through setData; a decryption failure is caught and
logged, skipping both the write and the key-clearing assignment. -/
def decryptAllLoop (tempKey : Option CryptoKey) (names : List String)
    (s : AppState Rv) : AppState Rv :=
  match names with
  | [] => s
  | name :: rest =>
    match getItem s.storage name with
    | none => decryptAllLoop tempKey rest s
    | some raw =>
      let s1 := { s with smKey := tempKey }
      match decryptData tempKey raw with
      | .ok v =>
        decryptAllLoop tempKey rest
          (DataManager.setData { s1 with smKey := none } name v).1
      | .error _ => decryptAllLoop tempKey rest s1

/-- Embedding of SecurityManager.decryptAllData (security.js 366-386):
keys are listed first, tempKey saves this.encryptionKey, the DataManager
encryption is removed, and then the loop above runs. -/
def decryptAllData (s : AppState Rv) : AppState Rv :=
  decryptAllLoop s.smKey (DataManager.getAllKeys s)
    (DataManager.removeEncryption s)

/-- Embedding of SecurityManager.enableEncryption (security.js 64-96),
parametrised by the two prompt responses (none models Cancel; the empty
string is falsy and aborts at the first guard).  Order of operations of
the success path, exactly as in the source: derive the key into
this.encryptionKey; run reencryptAllData; read-modify-write the settings
RecordSet with encryptionEnabled = true; only then install the key into
the DataManager via setEncryptionKey; finally set this.isEncryptionEnabled
and show the success alert. -/
def enableEncryption (s : AppState Rv)
    (password confirmPassword : Option String) : AppState Rv × List Ev :=
  match password with
  | none => (s, [])
  | some pw =>
    if pw = "" then (s, [])
    else if confirmPassword ≠ some pw then
      (s, [.alert "Passwords do not match!"])
    else
      let key := deriveKey pw
      let s1 : AppState Rv := { s with smKey := some key }
      let sweep := reencryptAllData s1
      let newSettings := withFlag (DataManager.getData sweep.1 "settings") true
      let s3 := (DataManager.setData sweep.1 "settings" newSettings).1
      let s4 := DataManager.setEncryptionKey s3 key
      let s5 := { s4 with smEnabled := true }
      (s5, [.derived pw, .smKeySet key] ++ sweep.2 ++
        [.settingsFlagWrite true, .dmKeyInstall key,
         .alert "Encryption enabled successfully!"])

/-- Embedding of SecurityManager.disableEncryption (security.js 101-132),
parametrised by the prompt response.  A missing or empty password aborts;
otherwise the candidate key is derived and checked with verifyPassword,
whose failure shows an alert and returns - with the candidate key left in
this.encryptionKey by verifyPassword.  On success every RecordSet is
decrypted and rewritten, the settings flag is persisted as false, the
DataManager key is removed, and the session flag and key are cleared. -/
def disableEncryption (s : AppState Rv) (password : Option String) :
    AppState Rv × List Ev :=
  match password with
  | none => (s, [])
  | some pw =>
    if pw = "" then (s, [])
    else
      let key := deriveKey pw
      let r := verifyPassword s key
      if r.2 then
        let s2 := decryptAllData r.1
        let newSettings := withFlag (DataManager.getData s2 "settings") false
        let s3 := (DataManager.setData s2 "settings" newSettings).1
        let s4 := DataManager.removeEncryption s3
        let s5 := { s4 with smEnabled := false, smKey := none }
        (s5, [.derived pw, .settingsFlagWrite false, .dmKeyRemove,
              .alert "Encryption disabled successfully!"])
      else (r.1, [.derived pw, .alert "Incorrect password!"])

end SecurityManager

/-- Array.prototype.findIndex: the index of the first element satisfying
the predicate, or none. -/
def findIndex {α : Type} (p : α → Bool) : List α → Option Nat
  | [] => none
  | a :: l => if p a then some 0 else (findIndex p l).map (· + 1)

/-- JavaScript indexed read arr[i]. -/
def getAt {α : Type} : List α → Nat → Option α
  | [], _ => none
  | a :: _, 0 => some a
  | _ :: l, n + 1 => getAt l n

/-- JavaScript indexed assignment arr[i] = x; the data manager only uses
indices produced by findIndex, which are always in range. -/
def setAt {α : Type} : List α → Nat → α → List α
  | [], _, _ => []
  | _ :: l, 0, x => x :: l
  | a :: l, n + 1, x => a :: setAt l n x

/-- JavaScript arr.splice(i, 1): removal of the element at index i. -/
def removeAt {α : Type} : List α → Nat → List α
  | [], _ => []
  | _ :: l, 0 => l
  | a :: l, n + 1 => a :: removeAt l n

/-- One entry of a savings-details list: the amount is the only field
updateGoalSavings reads; every other field of the entry is abstracted
into a note string.  Monetary amounts are modelled as integers. -/
structure Saving where
  amount : Int
  note : String
deriving DecidableEq

/-- The goal object collected by the goal form (handleGoalSubmit of the
app controller): name, target amount and target date. -/
structure GoalInput where
  name : String
  amount : Int
  date : String
deriving DecidableEq

/-- A stored goal: the spread form fields together with the fields that
addGoal and updateGoalSavings add. -/
structure Goal where
  name : String
  amount : Int
  date : String
  id : String
  saved : Int
  savingsDetails : List Saving
  created : String
  lastUpdated : Option String
deriving DecidableEq

/-- The goals RecordSet shape. -/
structure GoalsData where
  goals : List Goal
deriving DecidableEq

/-- The asset object collected by the asset form (handleAssetSubmit of
the app controller): name, type and current value. -/
structure AssetInput where
  name : String
  type : String
  value : Int
deriving DecidableEq

/-- A stored asset: the form fields together with the fields addAsset may
add.  The update branch of addAsset spreads only the form input, so id,
created and lastUpdated are optional. -/
structure Asset where
  name : String
  type : String
  value : Int
  id : Option String
  created : Option String
  lastUpdated : Option String
deriving DecidableEq

/-- The object produced by spreading a form input alone. -/
def assetOfInput (a : AssetInput) : Asset :=
  { name := a.name, type := a.type, value := a.value,
    id := none, created := none, lastUpdated := none }

/-- One assets history log entry; previousValue is present only on the
update action. -/
structure HistEntry where
  id : String
  name : String
  type : String
  value : Int
  previousValue : Option Int
  timestamp : String
  action : String
deriving DecidableEq

/-- The assets RecordSet shape. -/
structure AssetsData where
  assets : List Asset
  history : List HistEntry
deriving DecidableEq

namespace DataManager

/-- The running total computed by
savingsDetails.reduce((total, s) => total + s.amount, 0). -/
def sumAmounts (l : List Saving) : Int :=
  l.foldl (fun total s => total + s.amount) 0

/-- Record mutation of DataManager.addGoal (data-manager.js 364-376):
push the spread goal with a generated id, saved = 0, an empty
savingsDetails list and a created timestamp. -/
def addGoalD (data : GoalsData) (g : GoalInput) (id now : String) :
    GoalsData :=
  { goals := data.goals ++
      [{ name := g.name, amount := g.amount, date := g.date, id := id,
         saved := 0, savingsDetails := [], created := now,
         lastUpdated := none }] }

/-- Record mutation of DataManager.deleteGoal (data-manager.js 379-387);
none models the false return when no goal carries the id. -/
def deleteGoalD (data : GoalsData) (goalId : String) : Option GoalsData :=
  match findIndex (fun g => g.id == goalId) data.goals with
  | none => none
  | some i => some { goals := removeAt data.goals i }

/-- Record mutation of DataManager.updateGoalSavings
(data-manager.js 390-401): replace the savingsDetails list of the goal
found by id, recompute saved with the reduce above, and stamp
lastUpdated. -/
def updateGoalSavingsD (data : GoalsData) (goalId : String)
    (savingsDetails : List Saving) (now : String) : Option GoalsData :=
  match findIndex (fun g => g.id == goalId) data.goals with
  | none => none
  | some i =>
    match getAt data.goals i with
    | none => none
    | some g =>
      let upd : Goal :=
        { g with
          savingsDetails := savingsDetails,
          saved := sumAmounts savingsDetails,
          lastUpdated := some now }
      some { goals := setAt data.goals i upd }

/-- Reading the goals RecordSet as the goal methods do: getData with the
default empty shape when the result is falsy.  In the encrypted
DataManager state getData hands back a truthy Promise object and the
source would throw a TypeError when touching data.goals; the theorems
below run the goal operations in plaintext states only, where that
branch is unreachable, and the model collapses it to the default
shape. -/
def goalsOf (r : GetResult GoalsData) : GoalsData :=
  match r with
  | .value d => d
  | .nullv => { goals := [] }
  | .promiseResolved _ => { goals := [] }
  | .promiseRejected => { goals := [] }

/-- Embedding of DataManager.addGoal: read, mutate, write back. -/
def addGoal (s : AppState GoalsData) (g : GoalInput) (id now : String) :
    AppState GoalsData × Bool :=
  setData s "goals" (addGoalD (goalsOf (getData s "goals")) g id now)

/-- Embedding of DataManager.deleteGoal: a missing id returns false with
no write. -/
def deleteGoal (s : AppState GoalsData) (goalId : String) :
    AppState GoalsData × Bool :=
  match deleteGoalD (goalsOf (getData s "goals")) goalId with
  | none => (s, false)
  | some d => setData s "goals" d

/-- Embedding of DataManager.updateGoalSavings: a missing id returns
false with no write. -/
def updateGoalSavings (s : AppState GoalsData) (goalId : String)
    (savingsDetails : List Saving) (now : String) :
    AppState GoalsData × Bool :=
  match updateGoalSavingsD (goalsOf (getData s "goals")) goalId
      savingsDetails now with
  | none => (s, false)
  | some d => setData s "goals" d

/-- Record mutation of DataManager.addAsset (data-manager.js 126-172):
findIndex on the asset name; when found, the entry is replaced in place
by the spread input stamped lastUpdated, and an update history entry
logging the previous value is pushed; otherwise the input is appended
with a generated id and created timestamp and a create entry is pushed.
idA is the generated asset id, used only by the create branch, and idH
the generated history entry id. -/
def addAssetD (data : AssetsData) (a : AssetInput) (idA idH now : String) :
    AssetsData :=
  match findIndex (fun x => x.name == a.name) data.assets with
  | some i =>
    { assets := setAt data.assets i
        { assetOfInput a with lastUpdated := some now },
      history := data.history ++
        [{ id := idH, name := a.name, type := a.type, value := a.value,
           previousValue := (getAt data.assets i).map Asset.value,
           timestamp := now, action := "update" }] }
  | none =>
    { assets := data.assets ++
        [{ assetOfInput a with
            id := some idA, created := some now,
            lastUpdated := some now }],
      history := data.history ++
        [{ id := idH, name := a.name, type := a.type, value := a.value,
           previousValue := none, timestamp := now, action := "create" }] }

/-- Record mutation of DataManager.deleteAsset (data-manager.js 175-195);
none models the false return when no asset carries the name. -/
def deleteAssetD (data : AssetsData) (assetName : String)
    (idH now : String) : Option AssetsData :=
  match findIndex (fun x => x.name == assetName) data.assets with
  | none => none
  | some i =>
    match getAt data.assets i with
    | none => none
    | some del =>
      some { assets := removeAt data.assets i,
             history := data.history ++
               [{ id := idH, name := del.name, type := del.type,
                  value := del.value, previousValue := none,
                  timestamp := now, action := "delete" }] }

/-- Reading the assets RecordSet with its default shape, treated exactly
like goalsOf above. -/
def assetsOf (r : GetResult AssetsData) : AssetsData :=
  match r with
  | .value d => d
  | .nullv => { assets := [], history := [] }
  | .promiseResolved _ => { assets := [], history := [] }
  | .promiseRejected => { assets := [], history := [] }

/-- Embedding of DataManager.addAsset: read, mutate, write back. -/
def addAsset (s : AppState AssetsData) (a : AssetInput)
    (idA idH now : String) : AppState AssetsData × Bool :=
  setData s "assets" (addAssetD (assetsOf (getData s "assets")) a idA idH now)

/-- Embedding of DataManager.deleteAsset: a missing name returns false
with no write. -/
def deleteAsset (s : AppState AssetsData) (assetName idH now : String) :
    AppState AssetsData × Bool :=
  match deleteAssetD (assetsOf (getData s "assets")) assetName idH now with
  | none => (s, false)
  | some d => setData s "assets" d

end DataManager

/-- One goal-related data-manager call, with the generated ids and
timestamps as explicit inputs. -/
inductive GoalOp where
  | add (g : GoalInput) (id now : String)
  | del (goalId : String)
  | upd (goalId : String) (savingsDetails : List Saving) (now : String)

/-- Running one goal operation for its state effect. -/
def execGoalOp (s : AppState GoalsData) : GoalOp → AppState GoalsData
  | .add g id now => (DataManager.addGoal s g id now).1
  | .del goalId => (DataManager.deleteGoal s goalId).1
  | .upd goalId det now => (DataManager.updateGoalSavings s goalId det now).1

/-- Saved-total invariant of one goal. -/
def goalOk (g : Goal) : Prop :=
  g.saved = DataManager.sumAmounts g.savingsDetails

/-- Saved-total invariant of the goals RecordSet entry of a state. -/
def goalsInv (s : AppState GoalsData) : Prop :=
  match getItem s.storage "goals" with
  | some (.plain d) => ∀ g ∈ d.goals, goalOk g
  | _ => True

/-- One asset-related data-manager call, with the generated ids and
timestamps as explicit inputs. -/
inductive AssetOp where
  | add (a : AssetInput) (idA idH now : String)
  | del (assetName idH now : String)

/-- Running one asset operation for its state effect. -/
def execAssetOp (s : AppState AssetsData) : AssetOp → AppState AssetsData
  | .add a idA idH now => (DataManager.addAsset s a idA idH now).1
  | .del n idH now => (DataManager.deleteAsset s n idH now).1

/-- Name-uniqueness invariant of the assets RecordSet entry of a
state. -/
def assetsInv (s : AppState AssetsData) : Prop :=
  match getItem s.storage "assets" with
  | some (.plain d) => (d.assets.map Asset.name).Nodup
  | _ => True

/-- Concrete startup state for the lockout witness: encrypted settings
stored under the key derived from "good", no keys installed yet, session
flag already set by loadEncryptionState. -/
def lockoutState : AppState Nat :=
  ⟨[("settings",
     StoredStr.cipher (SecurityManager.deriveKey "good") 3 0)],
   none, false, none, true⟩

/-- Reading a key immediately after writing it yields exactly the stored
string. -/
theorem getItem_setItem_same {V : Type} (st : List (String × StoredStr V))
    (k : String) (v : StoredStr V) : getItem (setItem st k v) k = some v := by
  induction st with
  | nil => simp [setItem, getItem]
  | cons hd rest ih =>
    obtain ⟨k', v'⟩ := hd
    by_cases h : k' = k <;> simp [setItem, getItem, h, ih]

/-- Writing one key leaves the entries of every other key unchanged. -/
theorem getItem_setItem_ne {V : Type} (st : List (String × StoredStr V))
    (k k' : String) (v : StoredStr V) (hne : k' ≠ k) :
    getItem (setItem st k v) k' = getItem st k' := by
  have hkk : ¬ k = k' := fun h => hne h.symm
  induction st with
  | nil => simp [setItem, getItem, hkk]
  | cons hd rest ih =>
    obtain ⟨k0, v0⟩ := hd
    by_cases h : k0 = k
    · subst h
      simp [setItem, getItem, hkk]
    · simp [setItem, getItem, h, ih]

/-- Rewriting a key with the string it already holds is the identity. -/
theorem setItem_same {V : Type} (st : List (String × StoredStr V))
    (k : String) (v : StoredStr V) (h : getItem st k = some v) :
    setItem st k v = st := by
  induction st with
  | nil => simp [getItem] at h
  | cons hd rest ih =>
    obtain ⟨k', v'⟩ := hd
    by_cases hk : k' = k
    · subst hk
      simp [getItem] at h
      simp [setItem, h]
    · simp [getItem, hk] at h
      simp [setItem, hk, ih h]

/-- Characterisation of verifyPassword: the boolean it returns is the pure
verification outcome, and on failure the candidate key is left installed
in the SecurityManager. -/
theorem verifyPassword_eq {V : Type} (s : AppState V) (key : CryptoKey) :
    SecurityManager.verifyPassword s key =
      (if SecurityManager.verifies s.storage key then s
       else { s with smKey := some key },
       SecurityManager.verifies s.storage key) := by
  unfold SecurityManager.verifyPassword SecurityManager.verifies
  cases hx : getItem s.storage "settings" with
  | none => simp
  | some raw =>
    cases hd : SecurityManager.decryptData (some key) raw <;> simp [hx, hd]

/-- With no key installed in the DataManager, getData is plain JSON
parsing of the stored entry. -/
theorem getData_of_not_enc {V : Type} (s : AppState V) (name : String)
    (h : s.dmIsEncrypted = false) :
    DataManager.getData s name =
      match getItem s.storage name with
      | none => .nullv
      | some (.plain v) => .value v
      | some (.cipher _ _ _) => .nullv
      | some .promiseStr => .nullv := by
  unfold DataManager.getData
  cases hx : getItem s.storage name with
  | none => simp
  | some raw => cases raw <;> simp [h]

/-- Rewriting a name with the plaintext value it already stores is the
identity on the whole state, when the DataManager has no key. -/
theorem setData_self {V : Type} (s : AppState V) (name : String) (v : V)
    (h : s.dmIsEncrypted = false)
    (hx : getItem s.storage name = some (.plain v)) :
    (DataManager.setData s name v).1 = s := by
  obtain ⟨st, dk, de, sk, se⟩ := s
  simp only [AppState.dmIsEncrypted] at h
  subst h
  simp only [AppState.storage] at hx
  simp [DataManager.setData, setItem_same st name _ hx]

/-- With no key installed in the DataManager, the reencryptAllData sweep
rewrites every readable entry with its own plaintext, leaving the whole
storage unchanged, and emits only sweep-write events. -/
theorem reencryptLoop_plain (names : List String) (s : AppState Rv)
    (h : s.dmIsEncrypted = false) :
    (SecurityManager.reencryptLoop names s).1 = s ∧
    ∀ e ∈ (SecurityManager.reencryptLoop names s).2,
      ∃ n, e = Ev.storeWrite n := by
  induction names with
  | nil => simp [SecurityManager.reencryptLoop]
  | cons name rest ih =>
    have hstep :
        (match DataManager.getData s name with
          | .nullv => (s, ([] : List Ev))
          | .value v =>
            ((DataManager.setData s name v).1, [Ev.storeWrite name])
          | .promiseResolved _ =>
            ((DataManager.setData s name (.dataV 0)).1, [Ev.storeWrite name])
          | .promiseRejected =>
            ((DataManager.setData s name (.dataV 0)).1,
             [Ev.storeWrite name])).1 = s := by
      rw [getData_of_not_enc s name h]
      cases hx : getItem s.storage name with
      | none => rfl
      | some raw =>
        cases raw with
        | plain v => exact setData_self s name v h hx
        | cipher k n v => rfl
        | promiseStr => rfl
    constructor
    · show (SecurityManager.reencryptLoop (name :: rest) s).1 = s
      unfold SecurityManager.reencryptLoop
      simp only [hstep, (ih).1]
    · unfold SecurityManager.reencryptLoop
      simp only [hstep, List.mem_append]
      intro e he
      rcases he with he | he
      · rw [getData_of_not_enc s name h] at he
        cases hx : getItem s.storage name with
        | none => rw [hx] at he; simp at he
        | some raw =>
          cases raw with
          | plain v => rw [hx] at he; simp at he; exact ⟨name, he⟩
          | cipher k n v => rw [hx] at he; simp at he
          | promiseStr => rw [hx] at he; simp at he
      · exact (ih).2 e he

/-- Claim C1 (failing direction recorded as a code bug): with no key
installed in the DataManager, setData followed by getData on the same name
returns the stored value; but in the encrypted state that the enable flow
produces (both manager flags set and both keys installed), setData stores
the coerced Promise string, and the subsequent getData hands back a
Promise that rejects instead of a value deep-equal to the one stored,
because the async encryptData and decryptData are never awaited by the
synchronous data-manager methods. -/
theorem setData_getData_round_trip {V : Type} (s : AppState V)
    (name : String) (v : V) :
    (s.dmIsEncrypted = false →
      DataManager.getData (DataManager.setData s name v).1 name
        = .value v) ∧
    (s.dmIsEncrypted = true → s.dmKey.isSome = true →
      s.smEnabled = true → s.smKey.isSome = true →
      DataManager.getData (DataManager.setData s name v).1 name
        = .promiseRejected) := by
  constructor
  · intro h
    simp [DataManager.setData, DataManager.getData, h, getItem_setItem_same]
  · intro h1 h2 h3 h4
    obtain ⟨k, hk⟩ := Option.isSome_iff_exists.mp h4
    simp [DataManager.setData, DataManager.getData, h1, h2, h3, h4,
      getItem_setItem_same, hk, SecurityManager.decryptData]

/-- Witness for C1: a concrete plaintext state round-trips the value 5,
while the concrete post-enable encrypted state yields a rejected Promise
for it. -/
theorem setData_getData_round_trip_witness :
    DataManager.getData
      (DataManager.setData
        (⟨[], none, false, none, false⟩ : AppState Nat) "assets" 5).1
      "assets" = .value 5 ∧
    DataManager.getData
      (DataManager.setData
        (⟨[], some (SecurityManager.deriveKey "Secret123"), true,
          some (SecurityManager.deriveKey "Secret123"), true⟩ : AppState Nat)
        "assets" 5).1 "assets" = .promiseRejected :=
  ⟨(setData_getData_round_trip _ "assets" 5).1 rfl,
   (setData_getData_round_trip _ "assets" 5).2 rfl rfl rfl rfl⟩

/-- Claim C6 (third conjunct recorded as a code bug): getData returns null
when no entry is stored, and returns null when the stored entry is not
parseable JSON and no DataManager key is installed; but a decryption
failure while the keys are installed produces a Promise that rejects,
not a null return, because the rejection of the async decryptData escapes
the synchronous try/catch of getData. -/
theorem getData_soft_fail {V : Type} (s : AppState V) (name : String) :
    (getItem s.storage name = none →
      DataManager.getData s name = .nullv) ∧
    (∀ raw, getItem s.storage name = some raw → s.dmIsEncrypted = false →
      (∀ v : V, raw ≠ .plain v) → DataManager.getData s name = .nullv) ∧
    (s.dmIsEncrypted = true → s.dmKey.isSome = true →
      s.smEnabled = true → s.smKey.isSome = true →
      ∀ raw, getItem s.storage name = some raw →
        SecurityManager.decryptData s.smKey raw
          = .error "Failed to decrypt data" →
        DataManager.getData s name = .promiseRejected) := by
  refine ⟨fun h => by simp [DataManager.getData, h], ?_, ?_⟩
  · intro raw hraw hmode hnp
    cases raw with
    | plain v => exact absurd rfl (hnp v)
    | cipher k n v => simp [DataManager.getData, hraw, hmode]
    | promiseStr => simp [DataManager.getData, hraw, hmode]
  · intro h1 h2 h3 h4 raw hraw hdec
    simp [DataManager.getData, hraw, h1, h2, h3, h4, hdec]

/-- Witness for C6: in a concrete post-enable encrypted state holding the
coerced Promise string, getData returns a rejected Promise rather than
null; in a concrete plaintext state the absent entry and the unparseable
entry both give null. -/
theorem getData_soft_fail_witness :
    DataManager.getData
      (⟨[], none, false, none, false⟩ : AppState Nat) "income" = .nullv ∧
    DataManager.getData
      (⟨[("income", StoredStr.promiseStr)], none, false, none, false⟩ :
        AppState Nat) "income" = .nullv ∧
    DataManager.getData
      (⟨[("income", StoredStr.promiseStr)],
        some (SecurityManager.deriveKey "Secret123"), true,
        some (SecurityManager.deriveKey "Secret123"), true⟩ : AppState Nat)
      "income" = .promiseRejected :=
  ⟨(getData_soft_fail _ "income").1 rfl,
   (getData_soft_fail
      (⟨[("income", StoredStr.promiseStr)], none, false, none, false⟩ :
        AppState Nat) "income").2.1 StoredStr.promiseStr (by decide) rfl
      (fun v => by simp),
   (getData_soft_fail
      (⟨[("income", StoredStr.promiseStr)],
        some (SecurityManager.deriveKey "Secret123"), true,
        some (SecurityManager.deriveKey "Secret123"), true⟩ : AppState Nat)
      "income").2.2 rfl rfl rfl rfl StoredStr.promiseStr (by decide) rfl⟩

/-- Claim C7: key derivation is deterministic: the derivation parameters
are the fixed application constants, and the derived key is a function of
the password alone, equal across calls exactly when the passwords are
equal. -/
theorem deriveKey_deterministic :
    (∀ p : String,
      (SecurityManager.deriveKey p).salt = fixedSalt ∧
      (SecurityManager.deriveKey p).iterations = 100000 ∧
      (SecurityManager.deriveKey p).hash = "SHA-256" ∧
      (SecurityManager.deriveKey p).keyLength = 256) ∧
    ∀ p q : String,
      SecurityManager.deriveKey p = SecurityManager.deriveKey q ↔ p = q := by
  refine ⟨fun p => ⟨rfl, rfl, rfl, rfl⟩, fun p q => ⟨fun h => ?_, fun h => by rw [h]⟩⟩
  exact congrArg CryptoKey.password h

/-- Claim C5: wrong-key rejection: an envelope produced by encryptData
under a key k1 is exactly the cipher envelope of the plaintext, and
decryptData of that envelope under any distinct key k2 throws the
decryption Error instead of returning a value. -/
theorem decryptData_wrong_key {V : Type} (v : V) (k1 k2 : CryptoKey)
    (nonce : Nat) (hne : k2 ≠ k1) :
    SecurityManager.encryptData (some k1) v nonce
      = .ok (StoredStr.cipher k1 nonce v) ∧
    SecurityManager.decryptData (some k2) (StoredStr.cipher k1 nonce v)
      = .error "Failed to decrypt data" := by
  refine ⟨rfl, ?_⟩
  have h : ¬ k1 = k2 := fun h => hne h.symm
  simp [SecurityManager.decryptData, h]

/-- With no key installed, setData stores the plaintext of the value and
changes nothing else. -/
theorem setData_plain_eq {V : Type} (s : AppState V) (name : String)
    (v : V) (h : s.dmIsEncrypted = false) :
    (DataManager.setData s name v).1 =
      { s with storage := setItem s.storage name (.plain v) } := by
  obtain ⟨st, dk, de, sk, se⟩ := s
  simp only [AppState.dmIsEncrypted] at h
  subst h
  simp [DataManager.setData]

/-- With no DataManager key, getData depends on the storage contents
alone. -/
theorem getData_plain_congr {V : Type} (s s' : AppState V) (name : String)
    (h : s.dmIsEncrypted = false) (h' : s'.dmIsEncrypted = false)
    (hst : s.storage = s'.storage) :
    DataManager.getData s name = DataManager.getData s' name := by
  rw [getData_of_not_enc s name h, getData_of_not_enc s' name h', hst]

/-- Full characterisation of a successful enable-encryption run from a
plaintext DataManager state: the sweep leaves the storage untouched, the
settings object is persisted in plaintext with the flag set, and the key
reaches the DataManager only at the end. -/
theorem enableEncryption_plain_eq (s : AppState Rv) (pw : String)
    (hpw : pw ≠ "") (hmode : s.dmIsEncrypted = false) :
    SecurityManager.enableEncryption s (some pw) (some pw) =
      ({ s with
          storage := setItem s.storage "settings"
            (.plain (withFlag (DataManager.getData s "settings") true)),
          dmKey := some (SecurityManager.deriveKey pw),
          dmIsEncrypted := true,
          smKey := some (SecurityManager.deriveKey pw), smEnabled := true },
       [Ev.derived pw, Ev.smKeySet (SecurityManager.deriveKey pw)] ++
         (SecurityManager.reencryptAllData
            { s with smKey := some (SecurityManager.deriveKey pw) }).2 ++
         [Ev.settingsFlagWrite true,
          Ev.dmKeyInstall (SecurityManager.deriveKey pw),
          Ev.alert "Encryption enabled successfully!"]) := by
  obtain ⟨st, dk, de, sk, se⟩ := s
  simp only [AppState.dmIsEncrypted] at hmode
  subst hmode
  have hfix := (reencryptLoop_plain
    (DataManager.getAllKeys
      (⟨st, dk, false, some (SecurityManager.deriveKey pw), se⟩ : AppState Rv))
    ⟨st, dk, false, some (SecurityManager.deriveKey pw), se⟩ rfl).1
  have hget : DataManager.getData
      (⟨st, dk, false, some (SecurityManager.deriveKey pw), se⟩ : AppState Rv)
      "settings"
      = DataManager.getData (⟨st, dk, false, sk, se⟩ : AppState Rv)
          "settings" :=
    getData_plain_congr _ _ _ rfl rfl rfl
  unfold SecurityManager.enableEncryption
  simp [hpw, SecurityManager.reencryptAllData] at hfix ⊢
  rw [hfix, hget, setData_plain_eq _ _ _ rfl]
  simp [DataManager.setEncryptionKey]

/-- Witness for C5: the key derived from "PassB" rejects an envelope
encrypted under the key derived from "PassA". -/
theorem decryptData_wrong_key_witness :
    SecurityManager.decryptData (some (SecurityManager.deriveKey "PassB"))
      (StoredStr.cipher (SecurityManager.deriveKey "PassA") 7 (42 : Nat))
      = .error "Failed to decrypt data" :=
  (decryptData_wrong_key (42 : Nat) (SecurityManager.deriveKey "PassA")
    (SecurityManager.deriveKey "PassB") 7 (by decide)).2

/-- Claim C2 (recorded as a code bug): in an enable-encryption run from a
plaintext DataManager state with matching passwords, the event trace
places the installation of the derived key into the DataManager after
every sweep write and even after the settings flag write, and the sweep
leaves every stored entry byte-identical instead of rewriting it under
the new key; the encryptionEnabled=true settings object itself is
persisted in plaintext. -/
theorem enableEncryption_no_reencrypt (s : AppState Rv) (pw : String)
    (hpw : pw ≠ "") (hmode : s.dmIsEncrypted = false) :
    ∃ ws : List Ev,
      (SecurityManager.enableEncryption s (some pw) (some pw)).2 =
        [Ev.derived pw, Ev.smKeySet (SecurityManager.deriveKey pw)] ++ ws ++
        [Ev.settingsFlagWrite true,
         Ev.dmKeyInstall (SecurityManager.deriveKey pw),
         Ev.alert "Encryption enabled successfully!"] ∧
      (∀ e ∈ ws, ∃ n, e = Ev.storeWrite n) ∧
      (∀ name, name ≠ "settings" →
        getItem
          (SecurityManager.enableEncryption s (some pw) (some pw)).1.storage
          name = getItem s.storage name) ∧
      getItem
        (SecurityManager.enableEncryption s (some pw) (some pw)).1.storage
        "settings"
        = some (.plain (withFlag (DataManager.getData s "settings") true)) := by
  refine ⟨(SecurityManager.reencryptAllData
      { s with smKey := some (SecurityManager.deriveKey pw) }).2,
    ?_, ?_, ?_, ?_⟩
  · rw [enableEncryption_plain_eq s pw hpw hmode]
  · exact (reencryptLoop_plain
      (DataManager.getAllKeys
        { s with smKey := some (SecurityManager.deriveKey pw) })
      { s with smKey := some (SecurityManager.deriveKey pw) } hmode).2
  · intro name hne
    rw [enableEncryption_plain_eq s pw hpw hmode]
    exact getItem_setItem_ne s.storage "settings" name _ hne
  · rw [enableEncryption_plain_eq s pw hpw hmode]
    exact getItem_setItem_same s.storage "settings" _

/-- Witness for C2: a concrete plaintext state holding an assets entry and
a settings entry, enabled with password "Secret123". -/
theorem enableEncryption_no_reencrypt_witness :
    ∃ ws : List Ev,
      (SecurityManager.enableEncryption
        (⟨[("assets", .plain (.dataV 5)),
           ("settings", .plain (.settingsV false 0))],
          none, false, none, false⟩ : AppState Rv)
        (some "Secret123") (some "Secret123")).2 =
        [Ev.derived "Secret123",
         Ev.smKeySet (SecurityManager.deriveKey "Secret123")] ++ ws ++
        [Ev.settingsFlagWrite true,
         Ev.dmKeyInstall (SecurityManager.deriveKey "Secret123"),
         Ev.alert "Encryption enabled successfully!"] ∧
      (∀ e ∈ ws, ∃ n, e = Ev.storeWrite n) ∧
      (∀ name, name ≠ "settings" →
        getItem
          (SecurityManager.enableEncryption
            (⟨[("assets", .plain (.dataV 5)),
               ("settings", .plain (.settingsV false 0))],
              none, false, none, false⟩ : AppState Rv)
            (some "Secret123") (some "Secret123")).1.storage name
          = getItem
              (⟨[("assets", .plain (.dataV 5)),
                 ("settings", .plain (.settingsV false 0))],
                none, false, none, false⟩ : AppState Rv).storage name) ∧
      getItem
        (SecurityManager.enableEncryption
          (⟨[("assets", .plain (.dataV 5)),
             ("settings", .plain (.settingsV false 0))],
            none, false, none, false⟩ : AppState Rv)
          (some "Secret123") (some "Secret123")).1.storage "settings"
        = some (.plain (withFlag
            (DataManager.getData
              (⟨[("assets", .plain (.dataV 5)),
                 ("settings", .plain (.settingsV false 0))],
                none, false, none, false⟩ : AppState Rv) "settings")
            true)) :=
  enableEncryption_no_reencrypt _ "Secret123" (by decide) rfl

/-- Claim C3 (recorded as a code bug): a disable-encryption run whose
password fails verification aborts, leaving every stored entry, the
DataManager key and flag, and the session enabled-flag unchanged - but
the session encryption key is left holding the freshly derived candidate
key, because verifyPassword skips its restore on the failure path. -/
theorem disableEncryption_wrong_password (s : AppState Rv) (pw : String)
    (hpw : pw ≠ "")
    (hfail : SecurityManager.verifies s.storage
      (SecurityManager.deriveKey pw) = false) :
    SecurityManager.disableEncryption s (some pw) =
      ({ s with smKey := some (SecurityManager.deriveKey pw) },
       [Ev.derived pw, Ev.alert "Incorrect password!"]) := by
  unfold SecurityManager.disableEncryption
  simp [hpw, verifyPassword_eq, hfail]

/-- Witness for C3: a session unlocked under the key for "PassA" with an
encrypted settings entry, asked to disable with wrong password "PassB":
the flow aborts, yet the session key afterwards is the key derived from
"PassB", which differs from the key it held before. -/
theorem disableEncryption_wrong_password_witness :
    SecurityManager.disableEncryption
      (⟨[("settings", StoredStr.cipher
          (SecurityManager.deriveKey "PassA") 5 (Rv.settingsV true 0))],
        some (SecurityManager.deriveKey "PassA"), true,
        some (SecurityManager.deriveKey "PassA"), true⟩ : AppState Rv)
      (some "PassB")
      = ((⟨[("settings", StoredStr.cipher
            (SecurityManager.deriveKey "PassA") 5 (Rv.settingsV true 0))],
          some (SecurityManager.deriveKey "PassA"), true,
          some (SecurityManager.deriveKey "PassB"), true⟩ : AppState Rv),
         [Ev.derived "PassB", Ev.alert "Incorrect password!"]) ∧
    some (SecurityManager.deriveKey "PassB")
      ≠ some (SecurityManager.deriveKey "PassA") :=
  ⟨disableEncryption_wrong_password _ "PassB" (by decide) (by decide),
   by decide⟩

/-- Claim C8: an enable-encryption attempt with distinct password and
confirmation leaves the whole state unchanged (so no RecordSet is
rewritten, the settings flag keeps its value and no key is installed
anywhere) and produces nothing but user alerts - in particular no
key-derivation event. -/
theorem enableEncryption_mismatch (s : AppState Rv) (pw cpw : String)
    (hne : pw ≠ cpw) :
    (SecurityManager.enableEncryption s (some pw) (some cpw)).1 = s ∧
    ∀ e ∈ (SecurityManager.enableEncryption s (some pw) (some cpw)).2,
      ∃ m, e = Ev.alert m := by
  have hcp : ¬ (some cpw = some pw) := fun h => hne (Option.some.inj h).symm
  by_cases hp : pw = ""
  · subst hp
    refine ⟨by simp [SecurityManager.enableEncryption], ?_⟩
    intro e he
    simp [SecurityManager.enableEncryption] at he
  · refine ⟨by simp [SecurityManager.enableEncryption, hp, hcp], ?_⟩
    intro e he
    simp [SecurityManager.enableEncryption, hp, hcp] at he
    exact ⟨_, he⟩

/-- Witness for C8: enabling with password "X" and confirmation "Y" on a
concrete plaintext state changes nothing and emits only the mismatch
alert. -/
theorem enableEncryption_mismatch_witness :
    (SecurityManager.enableEncryption
      (⟨[("settings", .plain (.settingsV false 0))],
        none, false, none, false⟩ : AppState Rv)
      (some "X") (some "Y")).1
      = (⟨[("settings", .plain (.settingsV false 0))],
          none, false, none, false⟩ : AppState Rv) ∧
    ∀ e ∈ (SecurityManager.enableEncryption
      (⟨[("settings", .plain (.settingsV false 0))],
        none, false, none, false⟩ : AppState Rv)
      (some "X") (some "Y")).2, ∃ m, e = Ev.alert m :=
  enableEncryption_mismatch _ "X" "Y" (by decide)

/-- Claim C4: lockout boundary of the startup unlock: three consecutive
password attempts that all fail verification reach the terminal locked
state, while two failures followed by a password whose derived key
verifies end in the unlocked outcome with that key installed in both the
SecurityManager and the DataManager. -/
theorem requestPassword_lockout {V : Type} (s : AppState V)
    (p1 p2 p3 : String) (h1 : p1 ≠ "") (h2 : p2 ≠ "") (h3 : p3 ≠ "")
    (hf1 : SecurityManager.verifies s.storage
      (SecurityManager.deriveKey p1) = false)
    (hf2 : SecurityManager.verifies s.storage
      (SecurityManager.deriveKey p2) = false) :
    (SecurityManager.verifies s.storage
        (SecurityManager.deriveKey p3) = false →
      (SecurityManager.requestPassword [some p1, some p2, some p3] s).2
        = .locked) ∧
    (SecurityManager.verifies s.storage
        (SecurityManager.deriveKey p3) = true →
      (SecurityManager.requestPassword [some p1, some p2, some p3] s).2
        = .unlocked ∧
      (SecurityManager.requestPassword [some p1, some p2, some p3] s).1.smKey
        = some (SecurityManager.deriveKey p3) ∧
      (SecurityManager.requestPassword [some p1, some p2, some p3] s).1.dmKey
        = some (SecurityManager.deriveKey p3) ∧
      (SecurityManager.requestPassword
        [some p1, some p2, some p3] s).1.dmIsEncrypted = true) := by
  constructor
  · intro hf3
    simp [SecurityManager.requestPassword, SecurityManager.requestPasswordLoop,
      verifyPassword_eq, h1, h2, h3, hf1, hf2, hf3]
  · intro hs3
    simp [SecurityManager.requestPassword, SecurityManager.requestPasswordLoop,
      verifyPassword_eq, h1, h2, h3, hf1, hf2, hs3,
      DataManager.setEncryptionKey]

/-- Witness for C4: on the concrete startup state, three wrong passwords
lock the app, while bad1, bad2, good unlocks it with the good key
installed on both sides. -/
theorem requestPassword_lockout_witness :
    (SecurityManager.requestPassword
      [some "bad1", some "bad2", some "bad3"] lockoutState).2
      = .locked ∧
    (SecurityManager.requestPassword
      [some "bad1", some "bad2", some "good"] lockoutState).2
      = .unlocked ∧
    (SecurityManager.requestPassword
      [some "bad1", some "bad2", some "good"] lockoutState).1.smKey
      = some (SecurityManager.deriveKey "good") ∧
    (SecurityManager.requestPassword
      [some "bad1", some "bad2", some "good"] lockoutState).1.dmKey
      = some (SecurityManager.deriveKey "good") ∧
    (SecurityManager.requestPassword
      [some "bad1", some "bad2", some "good"] lockoutState).1.dmIsEncrypted
      = true := by
  have hlock := (requestPassword_lockout lockoutState "bad1" "bad2" "bad3"
    (by decide) (by decide) (by decide) (by decide) (by decide)).1 (by decide)
  have hopen := (requestPassword_lockout lockoutState "bad1" "bad2" "good"
    (by decide) (by decide) (by decide) (by decide) (by decide)).2 (by decide)
  exact ⟨hlock, hopen.1, hopen.2.1, hopen.2.2.1, hopen.2.2.2⟩

/-- An element of a spliced list was an element of the original list. -/
theorem mem_removeAt {α : Type} (l : List α) (i : Nat) (a : α)
    (h : a ∈ removeAt l i) : a ∈ l := by
  induction l generalizing i with
  | nil => simp [removeAt] at h
  | cons b l ih =>
    cases i with
    | zero => exact List.mem_cons_of_mem b h
    | succ n =>
      rcases List.mem_cons.mp h with h | h
      · exact h ▸ List.mem_cons_self b l
      · exact List.mem_cons_of_mem b (ih n h)

/-- An element of a list after an indexed assignment is an original
element or the assigned value. -/
theorem mem_setAt {α : Type} (l : List α) (i : Nat) (x a : α)
    (h : a ∈ setAt l i x) : a ∈ l ∨ a = x := by
  induction l generalizing i with
  | nil => simp [setAt] at h
  | cons b l ih =>
    cases i with
    | zero =>
      rcases List.mem_cons.mp h with h | h
      · exact Or.inr h
      · exact Or.inl (List.mem_cons_of_mem b h)
    | succ n =>
      rcases List.mem_cons.mp h with h | h
      · exact Or.inl (h ▸ List.mem_cons_self b l)
      · rcases ih n h with h | h
        · exact Or.inl (List.mem_cons_of_mem b h)
        · exact Or.inr h

/-- Indexed reads commute with map. -/
theorem getAt_map {α β : Type} (f : α → β) (l : List α) (i : Nat) :
    getAt (l.map f) i = (getAt l i).map f := by
  induction l generalizing i with
  | nil => simp [getAt]
  | cons b l ih =>
    cases i with
    | zero => simp [getAt]
    | succ n => simpa [getAt] using ih n

/-- Indexed assignments commute with map. -/
theorem map_setAt {α β : Type} (f : α → β) (l : List α) (i : Nat) (x : α) :
    (setAt l i x).map f = setAt (l.map f) i (f x) := by
  induction l generalizing i with
  | nil => simp [setAt]
  | cons b l ih =>
    cases i with
    | zero => simp [setAt]
    | succ n => simp [setAt, ih n]

/-- Splices commute with map. -/
theorem map_removeAt {α β : Type} (f : α → β) (l : List α) (i : Nat) :
    (removeAt l i).map f = removeAt (l.map f) i := by
  induction l generalizing i with
  | nil => simp [removeAt]
  | cons b l ih =>
    cases i with
    | zero => simp [removeAt]
    | succ n => simp [removeAt, ih n]

/-- Assigning back the value already present leaves the list unchanged. -/
theorem setAt_getAt_self {α : Type} (l : List α) (i : Nat) (x : α)
    (h : getAt l i = some x) : setAt l i x = l := by
  induction l generalizing i with
  | nil => simp [getAt] at h
  | cons b l ih =>
    cases i with
    | zero =>
      simp [getAt] at h
      simp [setAt, h]
    | succ n =>
      simp [getAt] at h
      simp [setAt, ih n h]

/-- A splice result is a sublist of the original list. -/
theorem removeAt_sublist {α : Type} (l : List α) (i : Nat) :
    List.Sublist (removeAt l i) l := by
  induction l generalizing i with
  | nil => simp [removeAt]
  | cons b l ih =>
    cases i with
    | zero => exact List.Sublist.cons b (List.Sublist.refl l)
    | succ n => exact List.Sublist.cons₂ b (ih n)

/-- A successful findIndex points at an element satisfying the
predicate. -/
theorem findIndex_some {α : Type} (p : α → Bool) (l : List α) (i : Nat)
    (h : findIndex p l = some i) :
    ∃ y, getAt l i = some y ∧ p y = true := by
  induction l generalizing i with
  | nil => simp [findIndex] at h
  | cons b l ih =>
    cases hpb : p b with
    | true =>
      simp [findIndex, hpb] at h
      subst h
      exact ⟨b, rfl, hpb⟩
    | false =>
      simp only [findIndex, hpb, Bool.false_eq_true, if_false,
        Option.map_eq_some'] at h
      obtain ⟨j, hj, hji⟩ := h
      obtain ⟨y, hy, hpy⟩ := ih j hj
      exact ⟨y, by rw [← hji]; simpa [getAt] using hy, hpy⟩

/-- A failed findIndex means no element satisfies the predicate. -/
theorem findIndex_none {α : Type} (p : α → Bool) (l : List α)
    (h : findIndex p l = none) : ∀ x ∈ l, p x = false := by
  induction l with
  | nil => simp
  | cons b l ih =>
    cases hpb : p b with
    | true => simp [findIndex, hpb] at h
    | false =>
      simp only [findIndex, hpb, Bool.false_eq_true, if_false,
        Option.map_eq_none'] at h
      intro x hx
      rcases List.mem_cons.mp hx with rfl | hx
      · exact hpb
      · exact ih h x hx

/-- Appending one fresh element preserves list nodup. -/
theorem nodup_append_singleton {α : Type} (l : List α) (x : α)
    (hx : x ∉ l) (hl : l.Nodup) : (l ++ [x]).Nodup := by
  induction l with
  | nil => simp
  | cons b l ih =>
    rcases List.nodup_cons.mp hl with ⟨hb, hl'⟩
    have hxl : x ∉ l := fun h => hx (List.mem_cons_of_mem b h)
    have hxb : x ≠ b := fun h => hx (h ▸ List.mem_cons_self b l)
    refine List.nodup_cons.mpr ⟨?_, ih hxl hl'⟩
    intro hmem
    rcases List.mem_append.mp hmem with h | h
    · exact hb h
    · exact hxb (List.mem_singleton.mp h).symm

/-- Introduction rule for the goals invariant. -/
theorem goalsInv_of_getItem (s : AppState GoalsData)
    (h : ∀ d, getItem s.storage "goals" = some (.plain d) →
      ∀ g ∈ d.goals, goalOk g) : goalsInv s := by
  unfold goalsInv
  cases hx : getItem s.storage "goals" with
  | none => trivial
  | some raw =>
    cases raw with
    | plain d => exact h d hx
    | cipher k n v => trivial
    | promiseStr => trivial

/-- Elimination rule for the goals invariant. -/
theorem goalsInv_elim (s : AppState GoalsData) (d : GoalsData)
    (hx : getItem s.storage "goals" = some (.plain d))
    (hinv : goalsInv s) : ∀ g ∈ d.goals, goalOk g := by
  unfold goalsInv at hinv
  rw [hx] at hinv
  exact hinv

/-- Writing a goals RecordSet whose goals all satisfy the saved-total
invariant establishes the state invariant, in plaintext mode. -/
theorem goalsInv_write (s : AppState GoalsData) (d : GoalsData)
    (h : s.dmIsEncrypted = false) (hok : ∀ g ∈ d.goals, goalOk g) :
    goalsInv (DataManager.setData s "goals" d).1 := by
  rw [setData_plain_eq s "goals" d h]
  apply goalsInv_of_getItem
  intro d' hx
  have h2 : some (StoredStr.plain d) = some (StoredStr.plain d') := by
    rw [← getItem_setItem_same s.storage "goals" (StoredStr.plain d)]
    exact hx
  simp at h2
  exact h2 ▸ hok

/-- The goals read by the data-manager goal methods satisfy the
invariant, in plaintext mode. -/
theorem goalsOf_ok (s : AppState GoalsData)
    (hmode : s.dmIsEncrypted = false) (hinv : goalsInv s) :
    ∀ g ∈ (DataManager.goalsOf (DataManager.getData s "goals")).goals,
      goalOk g := by
  rw [getData_of_not_enc s "goals" hmode]
  cases hx : getItem s.storage "goals" with
  | none => intro g hg; simp [DataManager.goalsOf] at hg
  | some raw =>
    cases raw with
    | plain d =>
      intro g hg
      exact goalsInv_elim s d hx hinv g
        (by simpa [DataManager.goalsOf] using hg)
    | cipher k n v => intro g hg; simp [DataManager.goalsOf] at hg
    | promiseStr => intro g hg; simp [DataManager.goalsOf] at hg

/-- Goal operations do not touch the DataManager encryption flag. -/
theorem execGoalOp_mode (s : AppState GoalsData) (op : GoalOp) :
    (execGoalOp s op).dmIsEncrypted = s.dmIsEncrypted := by
  cases op with
  | add g id now => rfl
  | del goalId =>
    simp only [execGoalOp, DataManager.deleteGoal]
    cases DataManager.deleteGoalD
      (DataManager.goalsOf (DataManager.getData s "goals")) goalId <;> rfl
  | upd goalId det now =>
    simp only [execGoalOp, DataManager.updateGoalSavings]
    cases DataManager.updateGoalSavingsD
      (DataManager.goalsOf (DataManager.getData s "goals")) goalId det
      now <;> rfl

/-- One goal operation preserves the saved-total invariant, in plaintext
mode. -/
theorem execGoalOp_inv (s : AppState GoalsData) (op : GoalOp)
    (hmode : s.dmIsEncrypted = false) (hinv : goalsInv s) :
    goalsInv (execGoalOp s op) := by
  have hold := goalsOf_ok s hmode hinv
  cases op with
  | add g id now =>
    simp only [execGoalOp, DataManager.addGoal]
    apply goalsInv_write s _ hmode
    intro goal hg
    unfold DataManager.addGoalD at hg
    rcases List.mem_append.mp hg with hg | hg
    · exact hold goal hg
    · rw [List.mem_singleton.mp hg]; rfl
  | del goalId =>
    simp only [execGoalOp, DataManager.deleteGoal]
    cases hd : DataManager.deleteGoalD
        (DataManager.goalsOf (DataManager.getData s "goals")) goalId with
    | none => exact hinv
    | some d' =>
      apply goalsInv_write s d' hmode
      intro goal hg
      unfold DataManager.deleteGoalD at hd
      cases hf : findIndex (fun g => g.id == goalId)
          (DataManager.goalsOf (DataManager.getData s "goals")).goals with
      | none => simp only [hf] at hd; exact Option.noConfusion hd
      | some i =>
        simp only [hf] at hd
        have hde := Option.some.inj hd
        rw [← hde] at hg
        exact hold goal (mem_removeAt _ i goal hg)
  | upd goalId det now =>
    simp only [execGoalOp, DataManager.updateGoalSavings]
    cases hd : DataManager.updateGoalSavingsD
        (DataManager.goalsOf (DataManager.getData s "goals")) goalId det
        now with
    | none => exact hinv
    | some d' =>
      apply goalsInv_write s d' hmode
      intro goal hg
      unfold DataManager.updateGoalSavingsD at hd
      cases hf : findIndex (fun g => g.id == goalId)
          (DataManager.goalsOf (DataManager.getData s "goals")).goals with
      | none => simp only [hf] at hd; exact Option.noConfusion hd
      | some i =>
        simp only [hf] at hd
        cases hg2 : getAt
            (DataManager.goalsOf (DataManager.getData s "goals")).goals
            i with
        | none => simp only [hg2] at hd; exact Option.noConfusion hd
        | some g0 =>
          simp only [hg2] at hd
          have hde := Option.some.inj hd
          rw [← hde] at hg
          rcases mem_setAt _ i _ goal hg with hmem | rfl
          · exact hold goal hmem
          · rfl

/-- Claim C9: after any sequence of addGoal, deleteGoal and
updateGoalSavings operations run in plaintext mode from a state whose
goals RecordSet satisfies the saved-total invariant, every goal still has
saved equal to the sum of the amounts of its savingsDetails list; and a
newly added goal always carries saved = 0 and an empty savingsDetails
list. -/
theorem goals_saved_invariant (s : AppState GoalsData) (ops : List GoalOp)
    (hmode : s.dmIsEncrypted = false) (hinv : goalsInv s) :
    goalsInv (ops.foldl execGoalOp s) ∧
    ∀ (d : GoalsData) (g : GoalInput) (id now : String),
      ∃ goal,
        (DataManager.addGoalD d g id now).goals = d.goals ++ [goal] ∧
        goal.saved = 0 ∧ goal.savingsDetails = [] := by
  refine ⟨?_, fun d g id now => ⟨_, rfl, rfl, rfl⟩⟩
  induction ops generalizing s with
  | nil => exact hinv
  | cons op rest ih =>
    exact ih (execGoalOp s op)
      (by rw [execGoalOp_mode]; exact hmode)
      (execGoalOp_inv s op hmode hinv)

/-- Witness for C9: a concrete run that adds a goal, records two savings
entries on it, adds a second goal and deletes it again. -/
theorem goals_saved_invariant_witness :
    goalsInv (List.foldl execGoalOp
      (⟨[], none, false, none, false⟩ : AppState GoalsData)
      [GoalOp.add ⟨"Car", 100, "2026-01"⟩ "g1" "t1",
       GoalOp.upd "g1" [⟨30, "a"⟩, ⟨20, "b"⟩] "t2",
       GoalOp.add ⟨"House", 500, "2027-01"⟩ "g2" "t3",
       GoalOp.del "g2"]) ∧
    ∀ (d : GoalsData) (g : GoalInput) (id now : String),
      ∃ goal,
        (DataManager.addGoalD d g id now).goals = d.goals ++ [goal] ∧
        goal.saved = 0 ∧ goal.savingsDetails = [] :=
  goals_saved_invariant _ _ rfl (by trivial)

/-- Introduction rule for the assets invariant. -/
theorem assetsInv_of_getItem (s : AppState AssetsData)
    (h : ∀ d, getItem s.storage "assets" = some (.plain d) →
      (d.assets.map Asset.name).Nodup) : assetsInv s := by
  unfold assetsInv
  cases hx : getItem s.storage "assets" with
  | none => trivial
  | some raw =>
    cases raw with
    | plain d => exact h d hx
    | cipher k n v => trivial
    | promiseStr => trivial

/-- Elimination rule for the assets invariant. -/
theorem assetsInv_elim (s : AppState AssetsData) (d : AssetsData)
    (hx : getItem s.storage "assets" = some (.plain d))
    (hinv : assetsInv s) : (d.assets.map Asset.name).Nodup := by
  unfold assetsInv at hinv
  rw [hx] at hinv
  exact hinv

/-- Writing an assets RecordSet with pairwise-distinct names establishes
the state invariant, in plaintext mode. -/
theorem assetsInv_write (s : AppState AssetsData) (d : AssetsData)
    (h : s.dmIsEncrypted = false) (hok : (d.assets.map Asset.name).Nodup) :
    assetsInv (DataManager.setData s "assets" d).1 := by
  rw [setData_plain_eq s "assets" d h]
  apply assetsInv_of_getItem
  intro d' hx
  have h2 : some (StoredStr.plain d) = some (StoredStr.plain d') := by
    rw [← getItem_setItem_same s.storage "assets" (StoredStr.plain d)]
    exact hx
  simp at h2
  exact h2 ▸ hok

/-- The assets read by the data-manager asset methods have distinct
names, in plaintext mode. -/
theorem assetsOf_nodup (s : AppState AssetsData)
    (hmode : s.dmIsEncrypted = false) (hinv : assetsInv s) :
    (((DataManager.assetsOf
      (DataManager.getData s "assets")).assets.map Asset.name)).Nodup := by
  rw [getData_of_not_enc s "assets" hmode]
  cases hx : getItem s.storage "assets" with
  | none => simp [DataManager.assetsOf]
  | some raw =>
    cases raw with
    | plain d =>
      have := assetsInv_elim s d hx hinv
      simpa [DataManager.assetsOf] using this
    | cipher k n v => simp [DataManager.assetsOf]
    | promiseStr => simp [DataManager.assetsOf]

/-- The update branch of addAsset preserves the name list exactly. -/
theorem addAssetD_names (d : AssetsData) (a : AssetInput)
    (idA idH now : String) (i : Nat)
    (hf : findIndex (fun x => x.name == a.name) d.assets = some i) :
    (DataManager.addAssetD d a idA idH now).assets.map Asset.name
      = d.assets.map Asset.name := by
  obtain ⟨y, hy, hpy⟩ := findIndex_some _ _ i hf
  unfold DataManager.addAssetD
  simp only [hf]
  rw [map_setAt]
  have hyn : y.name = a.name := eq_of_beq hpy
  have hget : getAt (d.assets.map Asset.name) i
      = some (({ assetOfInput a with
          lastUpdated := some now } : Asset).name) := by
    rw [getAt_map, hy]
    simp [assetOfInput, hyn]
  exact setAt_getAt_self _ _ _ hget

/-- Asset operations do not touch the DataManager encryption flag. -/
theorem execAssetOp_mode (s : AppState AssetsData) (op : AssetOp) :
    (execAssetOp s op).dmIsEncrypted = s.dmIsEncrypted := by
  cases op with
  | add a idA idH now => rfl
  | del n idH now =>
    simp only [execAssetOp, DataManager.deleteAsset]
    cases DataManager.deleteAssetD
      (DataManager.assetsOf (DataManager.getData s "assets")) n idH
      now <;> rfl

/-- One asset operation preserves name uniqueness, in plaintext mode. -/
theorem execAssetOp_inv (s : AppState AssetsData) (op : AssetOp)
    (hmode : s.dmIsEncrypted = false) (hinv : assetsInv s) :
    assetsInv (execAssetOp s op) := by
  have hold := assetsOf_nodup s hmode hinv
  cases op with
  | add a idA idH now =>
    simp only [execAssetOp, DataManager.addAsset]
    apply assetsInv_write s _ hmode
    cases hf : findIndex (fun x => x.name == a.name)
        (DataManager.assetsOf (DataManager.getData s "assets")).assets with
    | some i => rw [addAssetD_names _ a idA idH now i hf]; exact hold
    | none =>
      have hnot : a.name ∉ ((DataManager.assetsOf
          (DataManager.getData s "assets")).assets.map Asset.name) := by
        intro hmem
        obtain ⟨x, hx, hxname⟩ := List.mem_map.mp hmem
        have hfalse := findIndex_none _ _ hf x hx
        rw [hxname] at hfalse
        simp at hfalse
      unfold DataManager.addAssetD
      simp only [hf]
      rw [List.map_append]
      exact nodup_append_singleton _ _ hnot hold
  | del n idH now =>
    simp only [execAssetOp, DataManager.deleteAsset]
    cases hd : DataManager.deleteAssetD
        (DataManager.assetsOf (DataManager.getData s "assets")) n idH
        now with
    | none => exact hinv
    | some d' =>
      apply assetsInv_write s d' hmode
      unfold DataManager.deleteAssetD at hd
      cases hf : findIndex (fun x => x.name == n)
          (DataManager.assetsOf
            (DataManager.getData s "assets")).assets with
      | none => simp only [hf] at hd; exact Option.noConfusion hd
      | some i =>
        simp only [hf] at hd
        cases hg2 : getAt (DataManager.assetsOf
            (DataManager.getData s "assets")).assets i with
        | none => simp only [hg2] at hd; exact Option.noConfusion hd
        | some del0 =>
          simp only [hg2] at hd
          have hde := Option.some.inj hd
          rw [← hde]
          show ((removeAt (DataManager.assetsOf
            (DataManager.getData s "assets")).assets i).map
              Asset.name).Nodup
          rw [map_removeAt]
          exact (removeAt_sublist _ i).nodup hold

/-- Claim C10: addAsset is an upsert keyed on the asset name: an existing
name is replaced in place, preserving the name list and logging an update
history entry that records the previous value, while a new name is
appended with the generated id and created timestamp; every addAsset call
appends exactly one history entry; and any sequence of addAsset and
deleteAsset operations run in plaintext mode preserves pairwise
distinctness of asset names. -/
theorem addAsset_upsert (s : AppState AssetsData) (ops : List AssetOp)
    (hmode : s.dmIsEncrypted = false) (hinv : assetsInv s) :
    assetsInv (ops.foldl execAssetOp s) ∧
    (∀ (d : AssetsData) (a : AssetInput) (idA idH now : String),
      (DataManager.addAssetD d a idA idH now).history.length
        = d.history.length + 1) ∧
    (∀ (d : AssetsData) (a : AssetInput) (idA idH now : String) (i : Nat),
      findIndex (fun x => x.name == a.name) d.assets = some i →
      (DataManager.addAssetD d a idA idH now).assets.map Asset.name
          = d.assets.map Asset.name ∧
      ∃ h, (DataManager.addAssetD d a idA idH now).history
          = d.history ++ [h] ∧ h.action = "update" ∧
        h.previousValue = (getAt d.assets i).map Asset.value) ∧
    (∀ (d : AssetsData) (a : AssetInput) (idA idH now : String),
      findIndex (fun x => x.name == a.name) d.assets = none →
      (DataManager.addAssetD d a idA idH now).assets
        = d.assets ++ [{ assetOfInput a with
            id := some idA, created := some now,
            lastUpdated := some now }]) := by
  refine ⟨?_, ?_, ?_, ?_⟩
  · induction ops generalizing s with
    | nil => exact hinv
    | cons op rest ih =>
      exact ih (execAssetOp s op)
        (by rw [execAssetOp_mode]; exact hmode)
        (execAssetOp_inv s op hmode hinv)
  · intro d a idA idH now
    unfold DataManager.addAssetD
    cases hf : findIndex (fun x => x.name == a.name) d.assets <;> simp
  · intro d a idA idH now i hf
    refine ⟨addAssetD_names d a idA idH now i hf, ?_⟩
    unfold DataManager.addAssetD
    simp only [hf]
    exact ⟨_, rfl, rfl, rfl⟩
  · intro d a idA idH now hf
    unfold DataManager.addAssetD
    simp only [hf]

/-- Witness for C10: a concrete run that creates two assets, updates the
first by name and deletes the second. -/
theorem addAsset_upsert_witness :
    assetsInv (List.foldl execAssetOp
      (⟨[], none, false, none, false⟩ : AppState AssetsData)
      [AssetOp.add ⟨"Cash", "Bank", 1000⟩ "a1" "h1" "t1",
       AssetOp.add ⟨"Gold", "Metal", 500⟩ "a2" "h2" "t2",
       AssetOp.add ⟨"Cash", "Bank", 1200⟩ "a3" "h3" "t3",
       AssetOp.del "Gold" "h4" "t4"]) ∧
    (∀ (d : AssetsData) (a : AssetInput) (idA idH now : String),
      (DataManager.addAssetD d a idA idH now).history.length
        = d.history.length + 1) ∧
    (∀ (d : AssetsData) (a : AssetInput) (idA idH now : String) (i : Nat),
      findIndex (fun x => x.name == a.name) d.assets = some i →
      (DataManager.addAssetD d a idA idH now).assets.map Asset.name
          = d.assets.map Asset.name ∧
      ∃ h, (DataManager.addAssetD d a idA idH now).history
          = d.history ++ [h] ∧ h.action = "update" ∧
        h.previousValue = (getAt d.assets i).map Asset.value) ∧
    (∀ (d : AssetsData) (a : AssetInput) (idA idH now : String),
      findIndex (fun x => x.name == a.name) d.assets = none →
      (DataManager.addAssetD d a idA idH now).assets
        = d.assets ++ [{ assetOfInput a with
            id := some idA, created := some now,
            lastUpdated := some now }]) :=
  addAsset_upsert _ _ rfl (by trivial)

end FinanceTracker
